import Mathlib

/-!
Verification of the Multi-Agent-DealSeeker pipeline notebooks against their
specification.  The Python code of the notebooks is shallowly embedded:
strings are `String`/`List Char`, Python floats are `ℚ`, fallible code
returns `Option`/`Except`, and external services (the Chroma vector store,
the LLM endpoints, NumPy's random sampler) are explicit oracle parameters.
All rational values are built with `mkRat` and integer arithmetic so that
every definition evaluates inside the kernel.
-/

/-! ## Price parsing (`get_price`, notebook 04)

Python source:
```
def get_price(s):
    s = s.replace('$','').replace(',','')
    match = re.search(r"[-+]?\d*\.\d+|\d+", s)
    return float(match.group()) if match else 0
```
-/

/-- `s.replace('$','').replace(',','')`: removing every occurrence of a
single character with an empty replacement is a filter. -/
def cleanChars (s : List Char) : List Char :=
  (s.filter (fun c => c ≠ '$')).filter (fun c => c ≠ ',')

/-- Greedy match of the regex alternative `[-+]?\d*\.\d+` anchored at the
head of `cs`, returning the matched token.  (No backtracking is needed for
this pattern: if a sign character is consumed the empty-sign branch of
`[-+]?` dies immediately, because a sign character is neither a digit nor
a dot.) -/
def matchDec (cs : List Char) : Option (List Char) :=
  let p : List Char × List Char :=
    match cs with
    | c :: rest => if c = '-' ∨ c = '+' then ([c], rest) else ([], cs)
    | [] => ([], [])
  let ds := p.2.takeWhile Char.isDigit
  let cs2 := p.2.dropWhile Char.isDigit
  match cs2 with
  | '.' :: cs3 =>
    let fs := cs3.takeWhile Char.isDigit
    if fs.isEmpty then none else some (p.1 ++ ds ++ '.' :: fs)
  | _ => none

/-- Greedy match of the regex alternative `\d+` anchored at the head. -/
def matchInt (cs : List Char) : Option (List Char) :=
  let ds := cs.takeWhile Char.isDigit
  if ds.isEmpty then none else some ds

/-- `re.search` for the pattern `[-+]?\d*\.\d+|\d+`: scan positions left to
right; at each position try the first alternative, then the second. -/
def reSearch : List Char → Option (List Char)
  | [] => none
  | c :: rest =>
    match matchDec (c :: rest) with
    | some t => some t
    | none =>
      match matchInt (c :: rest) with
      | some t => some t
      | none => reSearch rest

/-- Value of a digit string (most significant first). -/
def digitsVal (ds : List Char) : ℕ :=
  ds.foldl (fun a c => 10 * a + (c.toNat - 48)) 0

/-- Python `float()` applied to a token matched by the price regex:
optional sign, integer digits, optional `.` followed by fraction digits. -/
def ratOfTok (t : List Char) : ℚ :=
  let q : ℤ × List Char :=
    match t with
    | '-' :: r => (-1, r)
    | '+' :: r => (1, r)
    | _ => (1, t)
  let ip := q.2.takeWhile Char.isDigit
  let rest := q.2.dropWhile Char.isDigit
  match rest with
  | '.' :: fs => mkRat (q.1 * ((digitsVal ip * 10 ^ fs.length + digitsVal fs : ℕ) : ℤ)) (10 ^ fs.length)
  | _ => mkRat (q.1 * (digitsVal ip : ℤ)) 1

/-- `get_price` from notebook 04. -/
def get_price (s : String) : ℚ :=
  match reSearch (cleanChars s.data) with
  | some t => ratOfTok t
  | none => 0

/-- Modelled from the claim's words (refinement reference): a numeric token
is an *optionally signed* integer or decimal, i.e. the sign is also allowed
on the integer alternative: `[-+]?(\d*\.\d+|\d+)`. -/
def matchIntClaim (cs : List Char) : Option (List Char) :=
  let p : List Char × List Char :=
    match cs with
    | c :: rest => if c = '-' ∨ c = '+' then ([c], rest) else ([], cs)
    | [] => ([], [])
  let ds := p.2.takeWhile Char.isDigit
  if ds.isEmpty then none else some (p.1 ++ ds)

/-- Modelled from the claim's words: leftmost token for the signed grammar. -/
def reSearchClaim : List Char → Option (List Char)
  | [] => none
  | c :: rest =>
    match matchDec (c :: rest) with
    | some t => some t
    | none =>
      match matchIntClaim (c :: rest) with
      | some t => some t
      | none => reSearchClaim rest

/-- Modelled from the claim's words: the price parser the claim describes. -/
def get_price_claim (s : String) : ℚ :=
  match reSearchClaim (cleanChars s.data) with
  | some t => ratOfTok t
  | none => 0

/-- Declarative description of the leftmost match actually performed by the
code: the token found at the least position where either alternative of the
source regex matches, the decimal alternative preferred. -/
def tokAt (cs : List Char) (i : ℕ) : Option (List Char) :=
  match matchDec (cs.drop i) with
  | some t => some t
  | none => matchInt (cs.drop i)

/-- Least position of `cs` at which the source regex matches. -/
def firstTokIdx (cs : List Char) : Option ℕ :=
  (List.range cs.length).find? (fun i => (tokAt cs i).isSome)

/-- The price parser described declaratively: clean the reply, take the
token at the least matching position (sign honoured only on the decimal
alternative), convert it; `0` when no position matches. -/
def get_price_spec (s : String) : ℚ :=
  match firstTokIdx (cleanChars s.data) with
  | some i =>
    match tokAt (cleanChars s.data) i with
    | some t => ratOfTok t
    | none => 0
  | none => 0

theorem tokAt_zero (c : Char) (rest : List Char) :
    tokAt (c :: rest) 0 =
      match matchDec (c :: rest) with
      | some t => some t
      | none => matchInt (c :: rest) := rfl

theorem tokAt_succ (c : Char) (rest : List Char) (i : ℕ) :
    tokAt (c :: rest) (i + 1) = tokAt rest i := rfl

theorem reSearch_eq_firstTok (cs : List Char) :
    reSearch cs =
      match firstTokIdx cs with
      | some i => tokAt cs i
      | none => none := by
  induction cs with
  | nil => rfl
  | cons c rest ih =>
    unfold firstTokIdx
    rw [List.length_cons, List.range_succ_eq_map, List.find?_cons]
    by_cases h0 : (tokAt (c :: rest) 0).isSome
    · simp only [h0]
      rw [show reSearch (c :: rest) =
            (match matchDec (c :: rest) with
             | some t => some t
             | none =>
               match matchInt (c :: rest) with
               | some t => some t
               | none => reSearch rest) from rfl]
      rw [tokAt_zero] at h0 ⊢
      cases hd : matchDec (c :: rest) with
      | some t => simp [hd]
      | none =>
        cases hi : matchInt (c :: rest) with
        | some t => simp [hd, hi]
        | none => simp [hd, hi] at h0
    · simp only [Bool.not_eq_true] at h0
      simp only [h0]
      have hscan : reSearch (c :: rest) = reSearch rest := by
        rw [tokAt_zero] at h0
        rw [show reSearch (c :: rest) =
              (match matchDec (c :: rest) with
               | some t => some t
               | none =>
                 match matchInt (c :: rest) with
                 | some t => some t
                 | none => reSearch rest) from rfl]
        cases hd : matchDec (c :: rest) with
        | some t => rw [hd] at h0; simp at h0
        | none =>
          cases hi : matchInt (c :: rest) with
          | some t => rw [hd, hi] at h0; simp at h0
          | none => simp [hd, hi]
      rw [hscan, ih]
      rw [List.find?_map]
      unfold firstTokIdx
      have hcomp : ((fun i => (tokAt (c :: rest) i).isSome) ∘ Nat.succ)
          = (fun i => (tokAt rest i).isSome) := by
        funext i
        simp [Function.comp, tokAt_succ]
      rw [hcomp]
      cases hf : (List.range rest.length).find? (fun i => (tokAt rest i).isSome) with
      | some i => simp [tokAt_succ]
      | none => simp

/-- The claim as stated is false: on the reply `"-5"` the first numeric
token in the claim's sense (optionally signed integer) is `-5`, but the
code's regex attaches the sign only to the decimal alternative, so
`get_price` returns `5`. -/
theorem C1_counterexample :
    get_price "-5" = 5 ∧ get_price_claim "-5" = -5 ∧
      get_price "-5" ≠ get_price_claim "-5" := by
  refine ⟨by decide, by decide, by decide⟩

/-- Claim C1 (amended): `get_price` removes every `'$'` and `','`, then
returns the numeric token at the least position where the source pattern
`[-+]?\d*\.\d+|\d+` matches — so a sign is honoured only on a decimal
token, an integer token is matched unsigned — converted to a number, and
returns `0` when no position of the cleaned reply carries a token. -/
theorem C1_amended (s : String) : get_price s = get_price_spec s := by
  unfold get_price get_price_spec
  rw [reSearch_eq_firstTok]
  cases hf : firstTokIdx (cleanChars s.data) with
  | some i => rfl
  | none => rfl

/-! ## String replacement machinery

`str.replace(old, new)` for a non-empty pattern, implemented with explicit
fuel so that it evaluates in the kernel: scan left to right, replacing each
(non-overlapping) occurrence of `p :: pt`.
-/

/-- Boolean prefix test on character lists. -/
def isPfx : List Char → List Char → Bool
  | [], _ => true
  | _ :: _, [] => false
  | a :: as, b :: bs => a = b && isPfx as bs

theorem isPfx_iff (as bs : List Char) : isPfx as bs = true ↔ as <+: bs := by
  induction as generalizing bs with
  | nil => simp [isPfx, List.nil_prefix]
  | cons a as ih =>
    cases bs with
    | nil =>
      simp only [isPfx]
      constructor
      · intro h
        cases h
      · intro h
        exact absurd (h.length_le) (by simp)
    | cons b bs =>
      simp only [isPfx, Bool.and_eq_true, decide_eq_true_eq, ih,
        List.cons_prefix_cons]

/-- One scanning pass of Python `str.replace` for the pattern `p :: pt`,
with `fuel` bounding the number of characters examined. -/
def repAux (p : Char) (pt rep : List Char) : ℕ → List Char → List Char
  | 0, s => s
  | _ + 1, [] => []
  | f + 1, c :: rest =>
    if p = c ∧ isPfx pt rest = true then
      rep ++ repAux p pt rep f (rest.drop pt.length)
    else
      c :: repAux p pt rep f rest

/-- `s.replace(pat, rep)` (total: the empty pattern returns `s` unchanged;
every pattern used by the notebooks is non-empty). -/
def pyReplace (s pat rep : String) : String :=
  match pat.data with
  | [] => s
  | p :: pt => ⟨repAux p pt rep.data s.data.length s.data⟩

/-- `pat` occurs somewhere inside `s`. -/
def occurs (pat s : List Char) : Prop := ∃ a b, s = a ++ pat ++ b

/-- Boolean occurrence test. -/
def occursB (pat : List Char) : List Char → Bool
  | [] => isPfx pat []
  | c :: rest => isPfx pat (c :: rest) || occursB pat rest

theorem occursB_iff (pat s : List Char) : occursB pat s = true ↔ occurs pat s := by
  induction s with
  | nil =>
    simp only [occursB, isPfx_iff, occurs]
    constructor
    · rintro ⟨t, ht⟩
      exact ⟨[], t, by simpa using ht.symm⟩
    · rintro ⟨a, b, h⟩
      have hlen := congrArg List.length h
      simp only [List.length_nil, List.length_append] at hlen
      have hpat : pat = [] := List.length_eq_zero.mp (by omega)
      exact ⟨[], by simp [hpat]⟩
  | cons c rest ih =>
    simp only [occursB, Bool.or_eq_true, isPfx_iff, ih]
    constructor
    · rintro (⟨t, ht⟩ | ⟨a, b, hab⟩)
      · exact ⟨[], t, by simpa using ht.symm⟩
      · exact ⟨c :: a, b, by simp [hab]⟩
    · rintro ⟨a, b, hab⟩
      cases a with
      | nil => exact Or.inl ⟨b, by simpa using hab.symm⟩
      | cons x xs =>
        right
        refine ⟨xs, b, ?_⟩
        have : c = x ∧ rest = xs ++ pat ++ b := by
          simpa using hab
        simp [this.2]

theorem repAux_nil (p : Char) (pt rep : List Char) (f : ℕ) :
    repAux p pt rep f [] = [] := by
  cases f <;> rfl

theorem repAux_fuel (p : Char) (pt rep : List Char) :
    ∀ (f1 f2 : ℕ) (s : List Char), s.length ≤ f1 → s.length ≤ f2 →
      repAux p pt rep f1 s = repAux p pt rep f2 s := by
  intro f1
  induction f1 with
  | zero =>
    intro f2 s hs _
    have : s = [] := List.length_eq_zero.mp (Nat.le_zero.mp hs)
    subst this
    rw [repAux_nil, repAux_nil]
  | succ f ih =>
    intro f2 s hs1 hs2
    cases s with
    | nil => rw [repAux_nil, repAux_nil]
    | cons c rest =>
      cases f2 with
      | zero => simp at hs2
      | succ f2 =>
        simp only [List.length_cons, Nat.succ_le_succ_iff] at hs1 hs2
        show (if p = c ∧ isPfx pt rest = true then
            rep ++ repAux p pt rep f (rest.drop pt.length)
          else c :: repAux p pt rep f rest) =
          (if p = c ∧ isPfx pt rest = true then
            rep ++ repAux p pt rep f2 (rest.drop pt.length)
          else c :: repAux p pt rep f2 rest)
        by_cases hb : p = c ∧ isPfx pt rest = true
        · rw [if_pos hb, if_pos hb]
          have hd : (rest.drop pt.length).length ≤ rest.length := by
            simp [List.length_drop]
          rw [ih f2 (rest.drop pt.length) (le_trans hd hs1) (le_trans hd hs2)]
        · rw [if_neg hb, if_neg hb, ih f2 rest hs1 hs2]

/-- If a prefix fits inside the left part of an append, it is a prefix of
the left part. -/
theorem pfx_of_append_of_le (as bs cs : List Char) (h : as <+: bs ++ cs)
    (hl : as.length ≤ bs.length) : as <+: bs :=
  List.prefix_of_prefix_length_le h (List.prefix_append bs cs) hl

theorem repAux_append (p : Char) (pt rep : List Char) :
    ∀ (n : ℕ) (u v : List Char), u.length ≤ n →
      (∀ t, t <:+ u → t ≠ [] → (p :: pt) <+: (t ++ v) →
        (p :: pt).length ≤ t.length) →
      repAux p pt rep (u ++ v).length (u ++ v)
        = repAux p pt rep u.length u ++ repAux p pt rep v.length v := by
  intro n
  induction n with
  | zero =>
    intro u v hu _
    have : u = [] := List.length_eq_zero.mp (Nat.le_zero.mp hu)
    subst this
    simp [repAux_nil]
  | succ n ih =>
    intro u v hu hspan
    cases u with
    | nil => simp [repAux_nil]
    | cons c rest =>
      simp only [List.length_cons, Nat.succ_le_succ_iff] at hu
      rw [List.cons_append]
      show (if p = c ∧ isPfx pt (rest ++ v) = true then
          rep ++ repAux p pt rep (rest ++ v).length ((rest ++ v).drop pt.length)
        else c :: repAux p pt rep (rest ++ v).length (rest ++ v)) = _
      by_cases hb : p = c ∧ isPfx pt (rest ++ v) = true
      · -- an occurrence starts here; by `hspan` it lies inside `c :: rest`
        have hsp := hspan (c :: rest) (List.suffix_refl _) (by simp)
          (by
            refine List.cons_prefix_cons.mpr ⟨hb.1, ?_⟩
            exact (isPfx_iff _ _).mp hb.2)
        simp only [List.length_cons, Nat.succ_le_succ_iff] at hsp
        have hptrest : pt <+: rest :=
          pfx_of_append_of_le pt rest v ((isPfx_iff _ _).mp hb.2) hsp
        have hb2 : p = c ∧ isPfx pt rest = true :=
          ⟨hb.1, (isPfx_iff _ _).mpr hptrest⟩
        rw [if_pos hb]
        have hdrop : (rest ++ v).drop pt.length = rest.drop pt.length ++ v :=
          List.drop_append_of_le_length hsp
        have hfuel : ((rest.drop pt.length) ++ v).length ≤ (rest ++ v).length := by
          simp [List.length_drop]
        rw [hdrop, repAux_fuel p pt rep _ ((rest.drop pt.length) ++ v).length _
          hfuel (le_refl _)]
        have hrec := ih (rest.drop pt.length) v
          (le_trans (by simp [List.length_drop]) hu)
          (by
            intro t ht htne hpfx
            exact hspan t (ht.trans ((List.drop_suffix _ _).trans
              (List.suffix_cons c rest))) htne hpfx)
        rw [hrec]
        show rep ++ (repAux p pt rep _ _ ++ _) = _
        rw [show (c :: rest).length = rest.length + 1 from rfl]
        show _ = (if p = c ∧ isPfx pt rest = true then
            rep ++ repAux p pt rep rest.length (rest.drop pt.length)
          else c :: repAux p pt rep rest.length rest) ++ _
        rw [if_pos hb2]
        rw [repAux_fuel p pt rep (rest.drop pt.length).length rest.length
          (rest.drop pt.length) (le_refl _) (by simp [List.length_drop])]
        simp [List.append_assoc]
      · rw [if_neg hb]
        have hb2 : ¬ (p = c ∧ isPfx pt rest = true) := by
          intro hc
          exact hb ⟨hc.1, (isPfx_iff _ _).mpr
            (((isPfx_iff _ _).mp hc.2).trans (List.prefix_append rest v))⟩
        have hrec := ih rest v hu
          (by
            intro t ht htne hpfx
            exact hspan t (ht.trans (List.suffix_cons c rest)) htne hpfx)
        rw [hrec]
        rw [show (c :: rest).length = rest.length + 1 from rfl]
        show _ = (if p = c ∧ isPfx pt rest = true then
            rep ++ repAux p pt rep rest.length (rest.drop pt.length)
          else c :: repAux p pt rep rest.length rest) ++ _
        rw [if_neg hb2]
        simp

theorem repAux_of_not_occurs (p : Char) (pt rep : List Char) :
    ∀ s : List Char, ¬ occurs (p :: pt) s →
      repAux p pt rep s.length s = s := by
  intro s
  induction s with
  | nil => intro _; rfl
  | cons c rest ih =>
    intro hno
    show (if p = c ∧ isPfx pt rest = true then
        rep ++ repAux p pt rep rest.length (rest.drop pt.length)
      else c :: repAux p pt rep rest.length rest) = c :: rest
    have hb : ¬ (p = c ∧ isPfx pt rest = true) := by
      rintro ⟨hp, hpt⟩
      rcases (isPfx_iff _ _).mp hpt with ⟨r, hr⟩
      exact hno ⟨[], r, by simp [hp, ← hr]⟩
    rw [if_neg hb, ih]
    intro hocc
    rcases hocc with ⟨a, b, hab⟩
    exact hno ⟨c :: a, b, by simp [hab]⟩

theorem mem_repAux (p : Char) (pt rep : List Char) :
    ∀ (f : ℕ) (s : List Char) (c : Char),
      c ∈ repAux p pt rep f s → c ∈ s ∨ c ∈ rep := by
  intro f
  induction f with
  | zero => intro s c h; exact Or.inl h
  | succ f ih =>
    intro s c h
    cases s with
    | nil => cases h
    | cons x rest =>
      by_cases hb : p = x ∧ isPfx pt rest = true
      · rw [show repAux p pt rep (f + 1) (x :: rest) =
            rep ++ repAux p pt rep f (rest.drop pt.length) from if_pos hb] at h
        rcases List.mem_append.mp h with h1 | h2
        · exact Or.inr h1
        · rcases ih (rest.drop pt.length) c h2 with h3 | h4
          · exact Or.inl (List.mem_cons_of_mem x (List.drop_subset _ _ h3))
          · exact Or.inr h4
      · rw [show repAux p pt rep (f + 1) (x :: rest) =
            x :: repAux p pt rep f rest from if_neg hb] at h
        rcases List.mem_cons.mp h with h1 | h2
        · exact Or.inl (h1 ▸ List.mem_cons_self x rest)
        · rcases ih rest c h2 with h3 | h4
          · exact Or.inl (List.mem_cons_of_mem x h3)
          · exact Or.inr h4

/-- A pattern with no self-overlap (no nonempty proper border) cannot match
across the boundary of `t ++ pat` except at offset `|t|` itself: any match
starting inside `t` forces `|pat| ≤ |t|`. -/
theorem border_free_span (pat : List Char)
    (hP : ∀ k, 0 < k → k < pat.length →
      pat.drop k ≠ pat.take (pat.length - k)) :
    ∀ t : List Char, t ≠ [] → pat <+: t ++ pat → pat.length ≤ t.length := by
  intro t htne hpfx
  by_contra hlt
  push_neg at hlt
  rcases hpfx with ⟨r, hr⟩
  have hdrop : pat = pat.drop t.length ++ r := by
    have h1 : (t ++ pat).drop t.length = pat := List.drop_left t pat
    rw [← hr] at h1
    rw [List.drop_append_of_le_length (le_of_lt hlt)] at h1
    exact h1.symm
  have hborder : pat.drop t.length = pat.take (pat.length - t.length) := by
    have hlen : pat.length - t.length = (pat.drop t.length).length := by
      simp
    have h2 : (pat.drop t.length ++ r).take (pat.drop t.length).length
        = pat.drop t.length := List.take_left _ r
    rw [← hdrop] at h2
    rw [hlen]
    exact h2.symm
  have htpos : 0 < t.length := List.length_pos.mpr htne
  exact hP t.length htpos hlt hborder

/-- If a pattern matches across the boundary of `t ++ v` starting at the
very beginning, with `t` shorter than the pattern, then the head of `v`
is a character of the pattern. -/
theorem span_head_mem (pat t v : List Char) (h : pat <+: t ++ v)
    (hl : t.length < pat.length) (x : Char) (hx : v.head? = some x) :
    x ∈ pat := by
  rcases h with ⟨r, hr⟩
  have hdrop : pat.drop t.length ++ r = v := by
    have h1 : (pat ++ r).drop t.length = pat.drop t.length ++ r :=
      List.drop_append_of_le_length (le_of_lt hl)
    have h2 : (t ++ v).drop t.length = v := List.drop_left t v
    rw [← h1, hr, h2]
  have hne : pat.drop t.length ≠ [] := by
    intro hnil
    have := congrArg List.length hnil
    simp at this
    omega
  cases hd : pat.drop t.length with
  | nil => exact absurd hd hne
  | cons y ys =>
    have : v.head? = some y := by
      rw [← hdrop, hd]
      rfl
    rw [hx] at this
    have hxy : x = y := by injection this
    subst hxy
    exact List.drop_subset t.length pat (hd ▸ List.mem_cons_self x ys)

/-- A nonempty suffix has the same `getLast?` as the whole list. -/
theorem getLast?_of_suffix (t s : List Char) (h : t <:+ s) (htne : t ≠ []) :
    t.getLast? = s.getLast? := by
  rcases h with ⟨a, ha⟩
  rw [← ha]
  exact (List.getLast?_append_of_ne_nil a htne).symm

/-! ## Decimal rendering of numbers

`str(j)` for a natural number and `f"{p:.2f}"` for a price, implemented
with explicit fuel so that they evaluate in the kernel. -/

/-- Decimal digits of `m` (most significant first), `fuel` bounding the
recursion depth (any `fuel > m` is exact). -/
def natToCharsAux : ℕ → ℕ → List Char
  | 0, _ => []
  | f + 1, m =>
    if m < 10 then [Nat.digitChar m]
    else natToCharsAux f (m / 10) ++ [Nat.digitChar (m % 10)]

/-- Python `str(n)` for a natural number. -/
def natToChars (n : ℕ) : List Char := natToCharsAux (n + 1) n

theorem natToCharsAux_ne_nil (f m : ℕ) (hf : 0 < f) :
    natToCharsAux f m ≠ [] := by
  cases f with
  | zero => omega
  | succ f =>
    show (if m < 10 then [Nat.digitChar m]
      else natToCharsAux f (m / 10) ++ [Nat.digitChar (m % 10)]) ≠ []
    by_cases h : m < 10
    · simp [h]
    · simp [h]

theorem digitChar_inj :
    ∀ a, a < 10 → ∀ b, b < 10 → Nat.digitChar a = Nat.digitChar b → a = b := by
  decide

theorem natToCharsAux_inj :
    ∀ (f1 : ℕ) (a : ℕ), a < f1 → ∀ (f2 b : ℕ), b < f2 →
      natToCharsAux f1 a = natToCharsAux f2 b → a = b := by
  intro f1
  induction f1 with
  | zero => intro a ha; omega
  | succ f ih =>
    intro a ha f2 b hb heq
    cases f2 with
    | zero => omega
    | succ f2 =>
      rw [show natToCharsAux (f + 1) a =
          (if a < 10 then [Nat.digitChar a]
           else natToCharsAux f (a / 10) ++ [Nat.digitChar (a % 10)]) from rfl,
        show natToCharsAux (f2 + 1) b =
          (if b < 10 then [Nat.digitChar b]
           else natToCharsAux f2 (b / 10) ++ [Nat.digitChar (b % 10)]) from rfl]
          at heq
      by_cases h1 : a < 10 <;> by_cases h2 : b < 10
      · rw [if_pos h1, if_pos h2] at heq
        exact digitChar_inj a h1 b h2 (by injection heq)
      · rw [if_pos h1, if_neg h2] at heq
        have hne := natToCharsAux_ne_nil f2 (b / 10) (by omega)
        have hlen := congrArg List.length heq
        simp only [List.length_append, List.length_cons, List.length_nil] at hlen
        have h0 : (natToCharsAux f2 (b / 10)).length = 0 := by omega
        exact absurd (List.length_eq_zero.mp h0) hne
      · rw [if_neg h1, if_pos h2] at heq
        have hne := natToCharsAux_ne_nil f (a / 10) (by omega)
        have hlen := congrArg List.length heq
        simp only [List.length_append, List.length_cons, List.length_nil] at hlen
        have h0 : (natToCharsAux f (a / 10)).length = 0 := by omega
        exact absurd (List.length_eq_zero.mp h0) hne
      · rw [if_neg h1, if_neg h2] at heq
        have hrev := congrArg List.reverse heq
        simp only [List.reverse_append, List.reverse_cons, List.reverse_nil,
          List.nil_append, List.singleton_append, List.cons.injEq] at hrev
        have hmod : a % 10 = b % 10 :=
          digitChar_inj _ (Nat.mod_lt a (by omega)) _ (Nat.mod_lt b (by omega)) hrev.1
        have hdivlt1 : a / 10 < f := by
          have : a / 10 < a := Nat.div_lt_self (by omega) (by omega)
          omega
        have hdivlt2 : b / 10 < f2 := by
          have : b / 10 < b := Nat.div_lt_self (by omega) (by omega)
          omega
        have hdiv : a / 10 = b / 10 := by
          apply ih (a / 10) hdivlt1 f2 (b / 10) hdivlt2
          have := congrArg List.reverse hrev.2
          simpa using this
        omega

theorem natToChars_inj (a b : ℕ) (h : natToChars a = natToChars b) : a = b :=
  natToCharsAux_inj (a + 1) a (by omega) (b + 1) b (by omega) h

/-- Fractional cents padded to two digits. -/
def pad2 (n : ℕ) : List Char :=
  if n < 10 then '0' :: natToChars n else natToChars n

/-- `round(|q| * 100)` with banker's (half-even) rounding, computed on the
numerator and denominator so the kernel can evaluate it. -/
def roundHalfEvenCents (q : ℚ) : ℕ :=
  let n : ℤ := |q.num| * 100
  let d : ℤ := (q.den : ℤ)
  let fl : ℤ := n / d
  let r : ℤ := n % d
  (if 2 * r < d then fl
   else if d < 2 * r then fl + 1
   else if fl % 2 = 0 then fl else fl + 1).toNat

/-- Python `f"{q:.2f}"`. -/
def format2 (q : ℚ) : String :=
  ⟨(if q < 0 then ['-'] else [])
    ++ natToChars (roundHalfEvenCents q / 100)
    ++ '.' :: pad2 (roundHalfEvenCents q % 100)⟩

/-! ## RAG prompt construction (`make_context` / `messages_for`, notebook 04)

Python source:
```
def make_context(similars, prices):
    message = "To provide some context, here are some other items that might be similar to the item you need to estimate.\n\n"
    for similar, price in zip(similars, prices):
        message += f"Potentially related product:\n{similar}\nPrice is ${price:.2f}\n\n"
    return message

def messages_for(item, similars, prices):
    system_message = "You estimate prices of items. Reply only with the price, no explanation"
    user_prompt = make_context(similars, prices)
    user_prompt += "And now the question for you:\n\n"
    user_prompt += item.test_prompt().replace(" to the nearest dollar","").replace("\n\nPrice is $","")
    return [ {system}, {user}, {assistant "Price is $"} ]
```
-/

/-- A test-set item as seen by notebook 04; only its description text is
relevant to prompt construction. -/
structure RagItem where
  text : String

/-- Modelled from the spec: `Item.test_prompt` lives in `utils/items.py`,
which is not part of the sources; per the spec the prompt is the question
header, the item text, and the price suffix with the ground-truth price
omitted ("the test variant omits the price answer"), which is exactly the
shape `description` in notebooks 04/05 strips away. -/
def test_prompt (item : RagItem) : String :=
  "How much does this cost to the nearest dollar?\n\n" ++ item.text
    ++ "\n\nPrice is $"

/-- One context entry of `make_context`. -/
def contextEntry (sp : String × ℚ) : String :=
  "Potentially related product:\n" ++ sp.1 ++ "\nPrice is $"
    ++ format2 sp.2 ++ "\n\n"

/-- `make_context` from notebook 04 (`zip` truncates to the shorter list,
as in Python). -/
def make_context (similars : List String) (prices : List ℚ) : String :=
  (similars.zip prices).foldl (fun message sp => message ++ contextEntry sp)
    "To provide some context, here are some other items that might be similar to the item you need to estimate.\n\n"

/-- The doubly-replaced test prompt appended at the end of the user
message. -/
def strippedQuery (item : RagItem) : String :=
  pyReplace (pyReplace (test_prompt item) " to the nearest dollar" "")
    "\n\nPrice is $" ""

/-- The complete `user` message content built by `messages_for`. -/
def user_content (item : RagItem) (similars : List String) (prices : List ℚ) :
    String :=
  make_context similars prices ++ "And now the question for you:\n\n"
    ++ strippedQuery item

/-- `messages_for` from notebook 04. -/
def messages_for (item : RagItem) (similars : List String)
    (prices : List ℚ) : List (String × String) :=
  [("system", "You estimate prices of items. Reply only with the price, no explanation"),
   ("user", user_content item similars prices),
   ("assistant", "Price is $")]

theorem make_context_entries (similars : List String) (prices : List ℚ) :
    (make_context similars prices).data =
      "To provide some context, here are some other items that might be similar to the item you need to estimate.\n\n".data
        ++ ((similars.zip prices).map (fun sp => (contextEntry sp).data)).flatten := by
  unfold make_context
  generalize "To provide some context, here are some other items that might be similar to the item you need to estimate.\n\n" = init
  induction (similars.zip prices) generalizing init with
  | nil => simp
  | cons sp l ih =>
    rw [List.foldl_cons, ih, List.map_cons, List.flatten_cons,
      String.data_append]
    simp [List.append_assoc]

theorem pyReplace_data (s pat rep : String) (p : Char) (pt : List Char)
    (hp : pat.data = p :: pt) :
    (pyReplace s pat rep).data = repAux p pt rep.data s.data.length s.data := by
  unfold pyReplace
  rw [hp]

/-- Fixed item used for the counterexample below. -/
def cexRagItem : RagItem := ⟨"Widget"⟩

/-- The claim as stated is false: when a retrieved similar document ends
with a newline, the context block itself contains the training-prompt
price suffix `"\n\nPrice is $"`, so the user content contains it even
though it was stripped from the test prompt. -/
theorem C6_counterexample :
    occurs "\n\nPrice is $".data (user_content cexRagItem ["x\n"] [1]).data :=
  (occursB_iff _ _).mp (by decide)

theorem span_take (pat t v : List Char) (h : pat <+: t ++ v)
    (hl : t.length ≤ pat.length) : t = pat.take t.length := by
  rcases h with ⟨r, hr⟩
  have h1 : (t ++ v).take t.length = t := List.take_left t v
  rw [← hr] at h1
  rw [List.take_append_of_le_length hl] at h1
  exact h1.symm

/-- Stripping the test prompt: for an item whose text does not contain the
dollar character, both replacements of `messages_for` evaluate to the
question header without `" to the nearest dollar"`, the replaced item text,
and no remaining occurrence of the price suffix. -/
theorem strippedQuery_spec (item : RagItem) (hd : '$' ∉ item.text.data) :
    (strippedQuery item).data
        = "How much does this cost?\n\n".data
            ++ (pyReplace item.text " to the nearest dollar" "").data
      ∧ ¬ occurs "\n\nPrice is $".data (strippedQuery item).data := by
  have hTT : (" to the nearest dollar" : String).data
      = ' ' :: "to the nearest dollar".data := rfl
  have hPP : ("\n\nPrice is $" : String).data
      = '\n' :: "\nPrice is $".data := rfl
  have htp : (test_prompt item).data
      = ("How much does this cost to the nearest dollar?\n\n".data
          ++ item.text.data) ++ "\n\nPrice is $".data := by
    simp [test_prompt, String.data_append, List.append_assoc]
  -- the inner replacement
  have hspan1 : ∀ t, t <:+ ("How much does this cost to the nearest dollar?\n\n".data
        ++ item.text.data) → t ≠ [] →
      (' ' :: "to the nearest dollar".data) <+: t ++ "\n\nPrice is $".data →
      (' ' :: "to the nearest dollar".data).length ≤ t.length := by
    intro t _ _ hpfx
    by_contra hlt
    push_neg at hlt
    have hx := span_head_mem _ t _ hpfx hlt '\n' rfl
    exact absurd hx (by decide)
  have hspan2 : ∀ t, t <:+ "How much does this cost to the nearest dollar?\n\n".data →
      t ≠ [] →
      (' ' :: "to the nearest dollar".data) <+: t ++ item.text.data →
      (' ' :: "to the nearest dollar".data).length ≤ t.length := by
    intro t ht htne hpfx
    by_contra hlt
    push_neg at hlt
    have htk := span_take _ t _ hpfx (le_of_lt hlt)
    have hlast := getLast?_of_suffix t _ ht htne
    have hl2 : t.getLast? = some '\n' := by
      rw [hlast]
      rfl
    have hmem : '\n' ∈ t := by
      rcases List.mem_getLast?_eq_getLast
          (show '\n' ∈ t.getLast? by rw [hl2]; rfl) with ⟨hne', he⟩
      exact he ▸ List.getLast_mem hne'
    rw [htk] at hmem
    have hmem2 := List.take_subset _ _ hmem
    exact absurd hmem2 (by decide)
  have hinner : (pyReplace (test_prompt item) " to the nearest dollar" "").data
      = "How much does this cost?\n\n".data
          ++ (pyReplace item.text " to the nearest dollar" "").data
          ++ "\n\nPrice is $".data := by
    rw [pyReplace_data _ _ _ _ _ hTT, htp]
    rw [repAux_append ' ' "to the nearest dollar".data "".data
      ("How much does this cost to the nearest dollar?\n\n".data
        ++ item.text.data).length
      ("How much does this cost to the nearest dollar?\n\n".data
        ++ item.text.data) "\n\nPrice is $".data (le_refl _) hspan1]
    rw [repAux_append ' ' "to the nearest dollar".data "".data
      "How much does this cost to the nearest dollar?\n\n".data.length
      "How much does this cost to the nearest dollar?\n\n".data
      item.text.data (le_refl _) hspan2]
    rw [show repAux ' ' "to the nearest dollar".data "".data
        "How much does this cost to the nearest dollar?\n\n".data.length
        "How much does this cost to the nearest dollar?\n\n".data
        = "How much does this cost?\n\n".data by decide]
    rw [show repAux ' ' "to the nearest dollar".data "".data
        "\n\nPrice is $".data.length "\n\nPrice is $".data
        = "\n\nPrice is $".data by decide]
    rw [pyReplace_data item.text _ "" _ _ hTT]
  -- the text part of the intermediate string still has no dollar character
  have hd' : '$' ∉ (pyReplace item.text " to the nearest dollar" "").data := by
    intro hmem
    rw [pyReplace_data item.text _ "" _ _ hTT] at hmem
    rcases mem_repAux _ _ _ _ _ _ hmem with h3 | h4
    · exact hd h3
    · cases h4
  -- the outer replacement removes exactly the final suffix
  have hnoocc : ¬ occurs ('\n' :: "\nPrice is $".data)
      ("How much does this cost?\n\n".data
        ++ (pyReplace item.text " to the nearest dollar" "").data) := by
    rintro ⟨a, b, hab⟩
    have hdol : '$' ∈ "How much does this cost?\n\n".data
        ++ (pyReplace item.text " to the nearest dollar" "").data := by
      rw [hab]
      have hin : '$' ∈ ('\n' :: "\nPrice is $".data) := by decide
      simp only [List.mem_append, List.append_assoc]
      tauto
    rcases List.mem_append.mp hdol with h1 | h2
    · exact absurd h1 (by decide)
    · exact hd' h2
  have hspan3 : ∀ t, t <:+ ("How much does this cost?\n\n".data
        ++ (pyReplace item.text " to the nearest dollar" "").data) → t ≠ [] →
      ('\n' :: "\nPrice is $".data) <+: t ++ "\n\nPrice is $".data →
      ('\n' :: "\nPrice is $".data).length ≤ t.length := by
    intro t _ htne hpfx
    refine border_free_span _ ?_ t htne hpfx
    have hb : ∀ k, k < ('\n' :: "\nPrice is $".data).length →
        (0 < k → ('\n' :: "\nPrice is $".data).drop k ≠
          ('\n' :: "\nPrice is $".data).take
            (('\n' :: "\nPrice is $".data).length - k)) := by decide
    exact fun k h1 h2 => hb k h2 h1
  have houter : (strippedQuery item).data
      = "How much does this cost?\n\n".data
          ++ (pyReplace item.text " to the nearest dollar" "").data := by
    show (pyReplace (pyReplace (test_prompt item) " to the nearest dollar" "")
        "\n\nPrice is $" "").data = _
    rw [pyReplace_data _ _ _ _ _ hPP, hinner, List.append_assoc,
      ← List.append_assoc]
    rw [repAux_append '\n' "\nPrice is $".data "".data
      ("How much does this cost?\n\n".data
        ++ (pyReplace item.text " to the nearest dollar" "").data).length
      ("How much does this cost?\n\n".data
        ++ (pyReplace item.text " to the nearest dollar" "").data)
      "\n\nPrice is $".data (le_refl _) hspan3]
    rw [show repAux '\n' "\nPrice is $".data "".data
        "\n\nPrice is $".data.length "\n\nPrice is $".data = [] by decide]
    rw [repAux_of_not_occurs '\n' "\nPrice is $".data "".data _ hnoocc]
    simp
  refine ⟨houter, ?_⟩
  rw [houter]
  exact hnoocc

/-- Claim C6 (amended): `messages_for` returns exactly three messages — the
fixed system instruction, a user message whose content is the
`make_context` block (one entry per retrieved pair, in order, stating the
similar item's text and its formatted price) followed by the question
marker and the stripped test prompt, and the assistant priming message
`"Price is $"`.  The price suffix `"\n\nPrice is $"` is removed from the
test prompt — for any item whose text does not contain `'$'` the query
portion of the user content contains no occurrence of it — but the user
content as a whole may still contain the suffix through the retrieved
context (see the counterexample). -/
theorem C6_amended (item : RagItem) (similars : List String) (prices : List ℚ) :
    messages_for item similars prices =
        [("system", "You estimate prices of items. Reply only with the price, no explanation"),
         ("user", user_content item similars prices),
         ("assistant", "Price is $")]
      ∧ (user_content item similars prices).data
          = (make_context similars prices).data
              ++ "And now the question for you:\n\n".data
              ++ (strippedQuery item).data
      ∧ (make_context similars prices).data
          = "To provide some context, here are some other items that might be similar to the item you need to estimate.\n\n".data
              ++ ((similars.zip prices).map (fun sp => (contextEntry sp).data)).flatten
      ∧ ('$' ∉ item.text.data →
          (strippedQuery item).data
              = "How much does this cost?\n\n".data
                  ++ (pyReplace item.text " to the nearest dollar" "").data
            ∧ ¬ occurs "\n\nPrice is $".data (strippedQuery item).data) := by
  refine ⟨rfl, ?_, make_context_entries similars prices,
    fun hd => strippedQuery_spec item hd⟩
  simp [user_content, String.data_append, List.append_assoc]

/-- Witness for `C6_amended` at a concrete item and retrieval list. -/
theorem C6_amended_witness :
    messages_for (RagItem.mk "Gadget") ["similar item"] [2] =
        [("system", "You estimate prices of items. Reply only with the price, no explanation"),
         ("user", user_content (RagItem.mk "Gadget") ["similar item"] [2]),
         ("assistant", "Price is $")]
      ∧ (user_content (RagItem.mk "Gadget") ["similar item"] [2]).data
          = (make_context ["similar item"] [2]).data
              ++ "And now the question for you:\n\n".data
              ++ (strippedQuery (RagItem.mk "Gadget")).data
      ∧ (make_context ["similar item"] [2]).data
          = "To provide some context, here are some other items that might be similar to the item you need to estimate.\n\n".data
              ++ ((["similar item"].zip [(2 : ℚ)]).map
                  (fun sp => (contextEntry sp).data)).flatten
      ∧ (strippedQuery (RagItem.mk "Gadget")).data
          = "How much does this cost?\n\n".data
              ++ (pyReplace "Gadget" " to the nearest dollar" "").data
      ∧ ¬ occurs "\n\nPrice is $".data
          (strippedQuery (RagItem.mk "Gadget")).data := by
  have h := C6_amended (RagItem.mk "Gadget") ["similar item"] [2]
  have h4 := h.2.2.2 (by decide)
  exact ⟨h.1, h.2.1, h.2.2.1, h4.1, h4.2⟩

/-! ## Vector-store retrieval (`find_similars`, notebook 04)

Python source:
```
def find_similars(item):
    results = collection.query(query_embeddings=vector(item).astype(float).tolist(), n_results=5)
    documents = results['documents'][0][:]
    prices = [m['price'] for m in results['metadatas'][0][:]]
    return documents, prices
```
The Chroma collection is modelled by an oracle `rankOf` giving, for a query
embedding, the whole store in ranked (nearest-first) order; `query` with
`n_results` returns its first `n_results` entries.  The sentence
transformer is an oracle `enc`; under the spec model of `Item`,
`description(item)` is exactly `item.text`. -/

/-- A record of the `products` collection: document text plus the
`{category, price}` metadata. -/
structure VRec where
  doc : String
  category : String
  price : ℚ
deriving DecidableEq

/-- `collection.query(query_embeddings=v, n_results=n)`. -/
def collection_query (rankOf : List ℚ → List VRec) (v : List ℚ)
    (n_results : ℕ) : List VRec :=
  (rankOf v).take n_results

/-- `find_similars` from notebook 04: ask for the 5 nearest neighbours and
return their documents and price metadata. -/
def find_similars (rankOf : List ℚ → List VRec) (enc : String → List ℚ)
    (item : RagItem) : List String × List ℚ :=
  let results := collection_query rankOf (enc item.text) 5
  (results.map VRec.doc, results.map VRec.price)

/-- Claim C10: `find_similars` requests exactly 5 nearest neighbours (so it
returns `min 5 (store size)` records when the store ranks all its records),
returns documents and prices of equal length in the store's ranked order,
and `prices[i]` is the price metadata of the record whose document text is
`documents[i]`. -/
theorem C10_find_similars (rankOf : List ℚ → List VRec)
    (enc : String → List ℚ) (store : List VRec) (item : RagItem)
    (hperm : (rankOf (enc item.text)).Perm store) :
    (find_similars rankOf enc item).1.length = min 5 store.length
      ∧ (find_similars rankOf enc item).1.length
          = (find_similars rankOf enc item).2.length
      ∧ ∀ i : ℕ,
          (find_similars rankOf enc item).1[i]?
              = (collection_query rankOf (enc item.text) 5)[i]?.map VRec.doc
            ∧ (find_similars rankOf enc item).2[i]?
              = (collection_query rankOf (enc item.text) 5)[i]?.map VRec.price := by
  refine ⟨?_, ?_, ?_⟩
  · simp [find_similars, collection_query, hperm.length_eq]
  · simp [find_similars]
  · intro i
    constructor
    · simp [find_similars, List.getElem?_map]
    · simp [find_similars, List.getElem?_map]

/-- Concrete store for the `C10` witness. -/
def storeW : List VRec :=
  [⟨"Quadcast HyperX condenser mic", "Electronics", 139⟩,
   ⟨"USB cable", "Electronics", 9⟩]

/-- Concrete ranking oracle for the `C10` witness. -/
def rankW : List ℚ → List VRec := fun _ => storeW

/-- Concrete encoder oracle for the witnesses. -/
def encW : String → List ℚ := fun _ => [1, 0]

/-- Concrete query item for the witnesses. -/
def itemW : RagItem := ⟨"condenser mic for podcasting"⟩

/-- Witness for `C10_find_similars` on a two-record store. -/
theorem C10_witness :
    (find_similars rankW encW itemW).1.length = min 5 storeW.length
      ∧ (find_similars rankW encW itemW).1.length
          = (find_similars rankW encW itemW).2.length
      ∧ (find_similars rankW encW itemW).2[0]?
          = (collection_query rankW (encW itemW.text) 5)[0]?.map VRec.price := by
  have h := C10_find_similars rankW encW storeW itemW (List.Perm.refl _)
  exact ⟨h.1, h.2.1, (h.2.2 0).2⟩

/-! ## DeepSeek retry loop (`deepseek_api_rag`, notebook 04)

Python source:
```
def deepseek_api_rag(item):
    documents, prices = find_similars(item)
    retries = 8
    done = False
    while not done and retries > 0:
        try:
            response = deepseek_via_openai_client.chat.completions.create(
                model="deepseek-chat", messages=messages_for(item, documents, prices),
                seed=42, max_tokens=8)
            reply = response.choices[0].message.content
            done = True
        except Exception as e:
            print(f"Error: {e}")
            retries -= 1
    return get_price(reply)
```
The endpoint is an oracle `llm` mapping the request messages and the
attempt index to either a reply or an upstream failure.  When every
attempt fails, `reply` was never assigned, so the final `get_price(reply)`
raises; the function therefore errors instead of returning a price. -/

/-- The `while not done and retries > 0` loop: returns the list of issued
requests (the messages of each attempt) and the reply, if any. -/
def deepseekLoop (llm : List (String × String) → ℕ → Except String String)
    (item : RagItem) (documents : List String) (prices : List ℚ) :
    ℕ → ℕ → List (List (String × String)) × Option String
  | _, 0 => ([], none)
  | attempt, r + 1 =>
    match llm (messages_for item documents prices) attempt with
    | .ok reply => ([messages_for item documents prices], some reply)
    | .error _ =>
      let res := deepseekLoop llm item documents prices (attempt + 1) r
      (messages_for item documents prices :: res.1, res.2)

/-- `deepseek_api_rag` from notebook 04, returning the issued requests
together with the outcome: a parsed price on success, an exception when
every attempt failed (`reply` unbound). -/
def deepseek_api_rag (rankOf : List ℚ → List VRec) (enc : String → List ℚ)
    (llm : List (String × String) → ℕ → Except String String)
    (item : RagItem) :
    List (List (String × String)) × Except String ℚ :=
  let dp := find_similars rankOf enc item
  let res := deepseekLoop llm item dp.1 dp.2 0 8
  (res.1,
    match res.2 with
    | some reply => Except.ok (get_price reply)
    | none => Except.error "UnboundLocalError: reply")


theorem deepseekLoop_succ (llm : List (String × String) → ℕ → Except String String)
    (item : RagItem) (documents : List String) (prices : List ℚ)
    (attempt r : ℕ) :
    deepseekLoop llm item documents prices attempt (r + 1)
      = match llm (messages_for item documents prices) attempt with
        | .ok reply => ([messages_for item documents prices], some reply)
        | .error _ =>
          let res := deepseekLoop llm item documents prices (attempt + 1) r
          (messages_for item documents prices :: res.1, res.2) := rfl

theorem deepseekLoop_length (llm : List (String × String) → ℕ → Except String String)
    (item : RagItem) (documents : List String) (prices : List ℚ) :
    ∀ (r attempt : ℕ),
      (deepseekLoop llm item documents prices attempt r).1.length ≤ r := by
  intro r
  induction r with
  | zero => intro attempt; simp [deepseekLoop]
  | succ r ih =>
    intro attempt
    rw [deepseekLoop_succ]
    cases llm (messages_for item documents prices) attempt with
    | ok reply => simp
    | error e =>
      simp only [List.length_cons]
      exact Nat.succ_le_succ (ih (attempt + 1))

theorem deepseekLoop_requests (llm : List (String × String) → ℕ → Except String String)
    (item : RagItem) (documents : List String) (prices : List ℚ) :
    ∀ (r attempt : ℕ),
      ∀ m ∈ (deepseekLoop llm item documents prices attempt r).1,
        m = messages_for item documents prices := by
  intro r
  induction r with
  | zero => intro attempt m hm; simp [deepseekLoop] at hm
  | succ r ih =>
    intro attempt m hm
    rw [deepseekLoop_succ] at hm
    revert hm
    cases llm (messages_for item documents prices) attempt with
    | ok reply =>
      intro hm
      simpa using hm
    | error e =>
      intro hm
      rcases List.mem_cons.mp hm with h1 | h2
      · exact h1
      · exact ih (attempt + 1) m h2

theorem deepseekLoop_all_fail (llm : List (String × String) → ℕ → Except String String)
    (item : RagItem) (documents : List String) (prices : List ℚ) :
    ∀ (r attempt : ℕ),
      (∀ k, attempt ≤ k → k < attempt + r →
        (llm (messages_for item documents prices) k).isOk = false) →
      (deepseekLoop llm item documents prices attempt r).2 = none
        ∧ (deepseekLoop llm item documents prices attempt r).1.length = r := by
  intro r
  induction r with
  | zero => intro attempt _; simp [deepseekLoop]
  | succ r ih =>
    intro attempt hfail
    have h0 := hfail attempt (le_refl _) (by omega)
    rw [deepseekLoop_succ]
    cases hcall : llm (messages_for item documents prices) attempt with
    | ok reply =>
      rw [hcall] at h0
      simp [Except.isOk, Except.toBool] at h0
    | error e =>
      have hrec := ih (attempt + 1) (by
        intro k hk1 hk2
        exact hfail k (by omega) (by omega))
      simp only [List.length_cons]
      exact ⟨hrec.1, by rw [hrec.2]⟩

theorem deepseekLoop_first_success
    (llm : List (String × String) → ℕ → Except String String)
    (item : RagItem) (documents : List String) (prices : List ℚ) :
    ∀ (r k attempt : ℕ), k < r →
      (∀ j, j < k →
        (llm (messages_for item documents prices) (attempt + j)).isOk = false) →
      ∀ rep, llm (messages_for item documents prices) (attempt + k)
          = Except.ok rep →
      (deepseekLoop llm item documents prices attempt r).2 = some rep
        ∧ (deepseekLoop llm item documents prices attempt r).1.length = k + 1 := by
  intro r
  induction r with
  | zero => intro k attempt hk; omega
  | succ r ih =>
    intro k attempt hk hfail rep hok
    rw [deepseekLoop_succ]
    cases k with
    | zero =>
      rw [show attempt + 0 = attempt from rfl] at hok
      rw [hok]
      exact ⟨rfl, rfl⟩
    | succ k =>
      have h0 := hfail 0 (by omega)
      rw [show attempt + 0 = attempt from rfl] at h0
      cases hcall : llm (messages_for item documents prices) attempt with
      | ok reply =>
        rw [hcall] at h0
        simp [Except.isOk, Except.toBool] at h0
      | error e =>
        have hrec := ih k (attempt + 1) (by omega)
          (by
            intro j hj
            have hj2 := hfail (j + 1) (by omega)
            rw [show attempt + (j + 1) = attempt + 1 + j by omega] at hj2
            exact hj2)
          rep (by rw [show attempt + 1 + k = attempt + (k + 1) by omega]; exact hok)
        simp only [List.length_cons]
        exact ⟨hrec.1, by rw [hrec.2]⟩

/-- Claim C2: `deepseek_api_rag` issues the same chat request (built once
from the same retrieved documents and prices) at most 8 times, stops as
soon as an attempt succeeds (a first success at attempt `k` means exactly
`k + 1` requests were issued and the parsed price is returned), and when
every one of the 8 attempts fails it raises instead of returning a price
(in CPython the final `get_price(reply)` raises `UnboundLocalError`
because `reply` was never assigned). -/
theorem C2_deepseek_retry (rankOf : List ℚ → List VRec)
    (enc : String → List ℚ)
    (llm : List (String × String) → ℕ → Except String String)
    (item : RagItem) :
    (deepseek_api_rag rankOf enc llm item).1.length ≤ 8
      ∧ (∀ m ∈ (deepseek_api_rag rankOf enc llm item).1,
          m = messages_for item (find_similars rankOf enc item).1
                (find_similars rankOf enc item).2)
      ∧ ((∀ k, k < 8 →
            (llm (messages_for item (find_similars rankOf enc item).1
              (find_similars rankOf enc item).2) k).isOk = false) →
          (deepseek_api_rag rankOf enc llm item).2
            = Except.error "UnboundLocalError: reply")
      ∧ (∀ k, k < 8 →
          (∀ j, j < k →
            (llm (messages_for item (find_similars rankOf enc item).1
              (find_similars rankOf enc item).2) j).isOk = false) →
          ∀ rep,
            llm (messages_for item (find_similars rankOf enc item).1
              (find_similars rankOf enc item).2) k = Except.ok rep →
            (deepseek_api_rag rankOf enc llm item).2
                = Except.ok (get_price rep)
              ∧ (deepseek_api_rag rankOf enc llm item).1.length = k + 1) := by
  refine ⟨?_, ?_, ?_, ?_⟩
  · exact deepseekLoop_length llm item _ _ 8 0
  · exact deepseekLoop_requests llm item _ _ 8 0
  · intro hfail
    have h := deepseekLoop_all_fail llm item (find_similars rankOf enc item).1
      (find_similars rankOf enc item).2 8 0
      (by intro k _ hk2; exact hfail k (by omega))
    show (match (deepseekLoop llm item (find_similars rankOf enc item).1
        (find_similars rankOf enc item).2 0 8).2 with
      | some reply => Except.ok (get_price reply)
      | none => Except.error "UnboundLocalError: reply") = _
    rw [h.1]
  · intro k hk hfail rep hok
    have h := deepseekLoop_first_success llm item
      (find_similars rankOf enc item).1 (find_similars rankOf enc item).2
      8 k 0 hk
      (by intro j hj; rw [show 0 + j = j from by omega]; exact hfail j hj)
      rep (by rw [show 0 + k = k from by omega]; exact hok)
    constructor
    · show (match (deepseekLoop llm item (find_similars rankOf enc item).1
          (find_similars rankOf enc item).2 0 8).2 with
        | some reply => Except.ok (get_price reply)
        | none => Except.error "UnboundLocalError: reply") = _
      rw [h.1]
    · exact h.2

/-- Endpoint oracle for the `C2` witness: the first two attempts fail,
the third succeeds. -/
def llmW : List (String × String) → ℕ → Except String String :=
  fun _ k => if k < 2 then Except.error "oversubscribed" else Except.ok "$42.50"

/-- Witness for `C2_deepseek_retry`: with two upstream failures followed by
a success, three requests are issued and the parsed price is returned. -/
theorem C2_witness :
    (deepseek_api_rag rankW encW llmW itemW).2
        = Except.ok (get_price "$42.50")
      ∧ (deepseek_api_rag rankW encW llmW itemW).1.length = 2 + 1
      ∧ (deepseek_api_rag rankW encW llmW itemW).1.length ≤ 8 := by
  have h := C2_deepseek_retry rankW encW llmW itemW
  have hs := h.2.2.2 2 (by omega)
    (by intro j hj
        simp only [llmW]
        rw [if_pos hj]
        rfl)
    "$42.50"
    (by simp only [llmW]
        rw [if_neg (by omega)])
  exact ⟨hs.1, hs.2, h.1⟩

/-! ## Dataset curation (notebook 01)

Python source:
```
items = []
for datapoint in dataset:
    try:
        price = float(datapoint["price"])
        if 1 <= price <= 999:
            item = Item(datapoint, price)
            if item.include:
                items.append(item)
    except ValueError:
        pass
```
`float()` is modelled by `pyFloat` (missing prices appear in this dataset
as the literal string "None", which fails conversion; non-finite inputs
are mapped to `none`, which coincides with exclusion because `inf`/`nan`
never satisfy the range check).  `Item.include` lives in `utils/items.py`
outside the sources and is an oracle parameter. -/

/-- Sign parsing shared by `pyFloat`. -/
def parseSign : List Char → ℤ × List Char
  | '-' :: r => (-1, r)
  | '+' :: r => (1, r)
  | cs => (1, cs)

/-- Exponent-and-assembly step of `pyFloat`: `sgn`, integer-part value
`ipv` and fraction digits `fp` have been read; `rest` must be empty or a
well-formed exponent. -/
def parseExp (sgn : ℤ) (ipv : ℕ) (fp : List Char) (rest : List Char) :
    Option ℚ :=
  match rest with
  | [] => some (mkRat (sgn * ((ipv * 10 ^ fp.length + digitsVal fp : ℕ) : ℤ))
      (10 ^ fp.length))
  | e :: r4 =>
    if e = 'e' ∨ e = 'E' then
      let q := parseSign r4
      let ed := q.2.takeWhile Char.isDigit
      let r6 := q.2.dropWhile Char.isDigit
      if ed.isEmpty ∨ ¬ r6.isEmpty then none
      else
        let ev := digitsVal ed
        let baseNum : ℤ := sgn * ((ipv * 10 ^ fp.length + digitsVal fp : ℕ) : ℤ)
        if q.1 = 1 then some (mkRat (baseNum * 10 ^ ev) (10 ^ fp.length))
        else some (mkRat baseNum (10 ^ fp.length * 10 ^ ev))
    else none

/-- Python `float(s)` on the decimal grammar
`[ws] [sign] (digits [. digits] | . digits) [(e|E) [sign] digits] [ws]`;
`none` models a raised `ValueError`. -/
def pyFloat (s : String) : Option ℚ :=
  let cs := s.data.dropWhile Char.isWhitespace
  let cs2 := (cs.reverse.dropWhile Char.isWhitespace).reverse
  let q := parseSign cs2
  let ip := q.2.takeWhile Char.isDigit
  let r1 := q.2.dropWhile Char.isDigit
  match r1 with
  | '.' :: r2 =>
    let fp := r2.takeWhile Char.isDigit
    let r3 := r2.dropWhile Char.isDigit
    if ip.isEmpty ∧ fp.isEmpty then none
    else parseExp q.1 (digitsVal ip) fp r3
  | _ =>
    if ip.isEmpty then none else parseExp q.1 (digitsVal ip) [] r1

/-- A raw dataset record; `price` is the raw string field, `title` stands
for the remaining free-text fields consumed by `Item`. -/
structure Datapoint where
  price : String
  title : String
deriving DecidableEq

/-- A curated item: the record together with its parsed price. -/
structure CurItem where
  datapoint : Datapoint
  price : ℚ
deriving DecidableEq

/-- The body of the curation loop for one record; `include_fn` is the
oracle for `Item.include` (token-budget filtering inside `utils/items.py`,
not part of the sources). -/
def processDatapoint (include_fn : Datapoint → ℚ → Bool) (d : Datapoint) :
    Option CurItem :=
  match pyFloat d.price with
  | none => none
  | some price =>
    if 1 ≤ price ∧ price ≤ 999 then
      if include_fn d price then some ⟨d, price⟩ else none
    else none

/-- The whole curation loop. -/
def curateItems (include_fn : Datapoint → ℚ → Bool)
    (dataset : List Datapoint) : List CurItem :=
  dataset.filterMap (processDatapoint include_fn)

/-- Claim C4: a record whose price field fails float conversion (including
the missing-price literal) or converts outside `[1, 999]` is excluded, and
every curated item carries a numeric price in `[1, 999]` parsed from its
record. -/
theorem C4_curation (include_fn : Datapoint → ℚ → Bool)
    (dataset : List Datapoint) :
    (∀ d ∈ dataset,
        (∀ q, pyFloat d.price = some q → ¬ (1 ≤ q ∧ q ≤ 999)) →
        processDatapoint include_fn d = none)
      ∧ (∀ d ∈ dataset, ∀ it, processDatapoint include_fn d = some it →
          ∃ q, pyFloat d.price = some q ∧ 1 ≤ q ∧ q ≤ 999
            ∧ it.price = q ∧ it.datapoint = d)
      ∧ (∀ it ∈ curateItems include_fn dataset,
          1 ≤ it.price ∧ it.price ≤ 999) := by
  have hred : ∀ d q, pyFloat d.price = some q →
      processDatapoint include_fn d =
        if 1 ≤ q ∧ q ≤ 999 then
          if include_fn d q then some ⟨d, q⟩ else none
        else none := by
    intro d q hp
    unfold processDatapoint
    rw [hp]
  have hrednone : ∀ d, pyFloat d.price = none →
      processDatapoint include_fn d = none := by
    intro d hp
    unfold processDatapoint
    rw [hp]
  have hnone : ∀ d, (∀ q, pyFloat d.price = some q → ¬ (1 ≤ q ∧ q ≤ 999)) →
      processDatapoint include_fn d = none := by
    intro d hq
    cases hp : pyFloat d.price with
    | none => exact hrednone d hp
    | some q =>
      rw [hred d q hp, if_neg (hq q hp)]
  have hsome : ∀ d it, processDatapoint include_fn d = some it →
      ∃ q, pyFloat d.price = some q ∧ 1 ≤ q ∧ q ≤ 999
        ∧ it.price = q ∧ it.datapoint = d := by
    intro d it hit
    cases hp : pyFloat d.price with
    | none => rw [hrednone d hp] at hit; cases hit
    | some q =>
      rw [hred d q hp] at hit
      by_cases hr : 1 ≤ q ∧ q ≤ 999
      · rw [if_pos hr] at hit
        by_cases hi : include_fn d q
        · rw [if_pos hi] at hit
          refine ⟨q, rfl, hr.1, hr.2, ?_, ?_⟩
          · rw [← Option.some_inj.mp hit]
          · rw [← Option.some_inj.mp hit]
        · rw [if_neg hi] at hit; cases hit
      · rw [if_neg hr] at hit; cases hit
  refine ⟨fun d _ => hnone d, fun d _ => hsome d, ?_⟩
  intro it hit
  rcases List.mem_filterMap.mp hit with ⟨d, _, hd⟩
  rcases hsome d it hd with ⟨q, _, h1, h2, hq, _⟩
  rw [hq]
  exact ⟨h1, h2⟩

/-- Record-inclusion oracle for the `C4` witness (accept everything, so
only price filtering acts). -/
def includeAll : Datapoint → ℚ → Bool := fun _ _ => true

/-- Dataset for the `C4` witness: a missing price, a valid price, and an
out-of-range price. -/
def datasetW : List Datapoint :=
  [⟨"None", "rusty bolt"⟩, ⟨"49.99", "blender"⟩, ⟨"1200.0", "rack server"⟩]

/-- Witness for `C4_curation`: the "None" and out-of-range records are
dropped, the valid record is curated with its parsed price. -/
theorem C4_witness :
    processDatapoint includeAll ⟨"None", "rusty bolt"⟩ = none
      ∧ processDatapoint includeAll ⟨"1200.0", "rack server"⟩ = none
      ∧ (∀ it ∈ curateItems includeAll datasetW,
          1 ≤ it.price ∧ it.price ≤ 999) := by
  have h := C4_curation includeAll datasetW
  refine ⟨?_, ?_, h.2.2⟩
  · refine h.1 ⟨"None", "rusty bolt"⟩ (by decide) ?_
    intro q hq
    rw [show pyFloat "None" = none from by decide] at hq
    cases hq
  · refine h.1 ⟨"1200.0", "rack server"⟩ (by decide) ?_
    intro q hq
    rw [show pyFloat "1200.0" = some 1200 from by decide] at hq
    have : q = 1200 := by injection hq with h'; exact h'.symm
    subst this
    decide

/-! ## Ensemble feature assembly (second notebook of `unnamed/part_000`)

Python source:
```
mins = [min(s,f,r) for s,f,r in zip(specialists, frontiers, random_forests)]
maxes = [max(s,f,r) for s,f,r in zip(specialists, frontiers, random_forests)]
X = pd.DataFrame({'Specialist': specialists, 'Frontier': frontiers,
                  'RandomForest': random_forests, 'Min': mins, 'Max': maxes})
```
-/

/-- Three-way zip, truncating to the shortest list like Python `zip`. -/
def zip3With (g : ℚ → ℚ → ℚ → ℚ) : List ℚ → List ℚ → List ℚ → List ℚ
  | s :: ss, f :: fs, r :: rs => g s f r :: zip3With g ss fs rs
  | _, _, _ => []

/-- Python `min(s, f, r)`. -/
def min3 (s f r : ℚ) : ℚ := min s (min f r)

/-- Python `max(s, f, r)`. -/
def max3 (s f r : ℚ) : ℚ := max s (max f r)

/-- The `Min` column of the ensemble feature matrix. -/
def ensemble_mins (S F R : List ℚ) : List ℚ := zip3With min3 S F R

/-- The `Max` column of the ensemble feature matrix. -/
def ensemble_maxes (S F R : List ℚ) : List ℚ := zip3With max3 S F R

theorem zip3With_getElem (g : ℚ → ℚ → ℚ → ℚ) :
    ∀ (S F R : List ℚ) (i : ℕ) (s f r : ℚ),
      S[i]? = some s → F[i]? = some f → R[i]? = some r →
      (zip3With g S F R)[i]? = some (g s f r) := by
  intro S
  induction S with
  | nil => intro F R i s f r hs; simp at hs
  | cons s0 ss ih =>
    intro F R i s f r hs hf hr
    cases F with
    | nil => simp at hf
    | cons f0 fs =>
      cases R with
      | nil => simp at hr
      | cons r0 rs =>
        cases i with
        | zero =>
          simp only [List.getElem?_cons_zero, Option.some_inj] at hs hf hr
          simp [zip3With, hs, hf, hr]
        | succ i =>
          simp only [List.getElem?_cons_succ] at hs hf hr
          rw [show zip3With g (s0 :: ss) (f0 :: fs) (r0 :: rs)
              = g s0 f0 r0 :: zip3With g ss fs rs from rfl,
            List.getElem?_cons_succ]
          exact ih fs rs i s f r hs hf hr

/-- Claim C5: row `i` of the ensemble feature matrix has
`Min = min(s, f, r)` and `Max = max(s, f, r)` of that row's three
estimates, and `Min ≤ s, f, r ≤ Max`. -/
theorem C5_ensemble_min_max (S F R : List ℚ) (i : ℕ) (s f r : ℚ)
    (hs : S[i]? = some s) (hf : F[i]? = some f) (hr : R[i]? = some r) :
    (ensemble_mins S F R)[i]? = some (min3 s f r)
      ∧ (ensemble_maxes S F R)[i]? = some (max3 s f r)
      ∧ min3 s f r ≤ s ∧ min3 s f r ≤ f ∧ min3 s f r ≤ r
      ∧ s ≤ max3 s f r ∧ f ≤ max3 s f r ∧ r ≤ max3 s f r := by
  refine ⟨zip3With_getElem min3 S F R i s f r hs hf hr,
    zip3With_getElem max3 S F R i s f r hs hf hr, ?_, ?_, ?_, ?_, ?_, ?_⟩
  · exact min_le_left _ _
  · exact le_trans (min_le_right _ _) (min_le_left _ _)
  · exact le_trans (min_le_right _ _) (min_le_right _ _)
  · exact le_max_left _ _
  · exact le_trans (le_max_left _ _) (le_max_right _ _)
  · exact le_trans (le_max_right _ _) (le_max_right _ _)

/-- Witness for `C5_ensemble_min_max` on the row `(7, 3, 5)`. -/
theorem C5_witness :
    (ensemble_mins [7, 10] [3, 20] [5, 30])[0]? = some (min3 7 3 5)
      ∧ (ensemble_maxes [7, 10] [3, 20] [5, 30])[0]? = some (max3 7 3 5)
      ∧ min3 7 3 5 ≤ 7 ∧ min3 7 3 5 ≤ 3 ∧ min3 7 3 5 ≤ 5
      ∧ (7 : ℚ) ≤ max3 7 3 5 ∧ (3 : ℚ) ≤ max3 7 3 5 ∧ (5 : ℚ) ≤ max3 7 3 5 :=
  C5_ensemble_min_max [7, 10] [3, 20] [5, 30] 0 7 3 5 (by decide) (by decide)
    (by decide)

/-! ## Vector-store build loop (first notebook of `unnamed/part_000`)

Python source:
```
for i in tqdm(range(0, len(train), 1000)):
    documents = [description(item) for item in train[i: i+1000]]
    vectors = model.encode(documents).astype(float).tolist()
    metadatas = [{"category": item.category, "price": item.price} for item in train[i: i+1000]]
    ids = [f"doc_{j}" for j in range(i, i+1000)]
    collection.add(ids=ids, documents=documents, embeddings=vectors, metadatas=metadatas)
```
-/

/-- `s.split(p :: pt)[0]`: everything before the first occurrence of the
pattern (the whole string when the pattern does not occur). -/
def beforeOcc (p : Char) (pt : List Char) : List Char → List Char
  | [] => []
  | c :: rest =>
    if p = c ∧ isPfx pt rest = true then [] else c :: beforeOcc p pt rest

/-- Python `s.split(pat)[0]` for a non-empty separator. -/
def pySplitHead (s pat : String) : String :=
  match pat.data with
  | [] => s
  | p :: pt => ⟨beforeOcc p pt s.data⟩

/-- A training item as stored in `train.pkl`. -/
structure TrainItem where
  prompt : String
  category : String
  price : ℚ

/-- `description` from the store-building notebook. -/
def description (item : TrainItem) : String :=
  pySplitHead
    (pyReplace item.prompt "How much does this cost to the nearest dollar?\n\n" "")
    "\n\nPrice is $"

/-- `f"doc_{j}"`. -/
def docId (j : ℕ) : String := "doc_" ++ ⟨natToChars j⟩

/-- `range(0, n, 1000)`. -/
def batchStarts (n : ℕ) : List ℕ :=
  (List.range ((n + 999) / 1000)).map (fun k => 1000 * k)

/-- The `ids` list of the batch starting at `i`. -/
def batchIds (i : ℕ) : List String := (List.range' i 1000).map docId

/-- The `documents` list of the batch starting at `i`. -/
def batchDocs (train : List TrainItem) (i : ℕ) : List String :=
  ((train.drop i).take 1000).map description

/-- Every id passed to `collection.add` over the whole build loop. -/
def allIds (n : ℕ) : List String := (batchStarts n).flatMap batchIds

theorem docId_inj : Function.Injective docId := by
  intro a b h
  have hd := congrArg String.data h
  have ha : (docId a).data = "doc_".data ++ natToChars a := by
    simp [docId, String.data_append]
  have hb : (docId b).data = "doc_".data ++ natToChars b := by
    simp [docId, String.data_append]
  rw [ha, hb] at hd
  exact natToChars_inj a b (List.append_cancel_left hd)

theorem batch_ranges_concat (m : ℕ) :
    ((List.range m).map (fun k => 1000 * k)).flatMap (fun i => List.range' i 1000)
      = List.range' 0 (1000 * m) := by
  induction m with
  | zero => simp
  | succ m ih =>
    rw [List.range_succ, List.map_append, List.flatMap_append, ih]
    simp only [List.map_cons, List.map_nil, List.flatMap_cons, List.flatMap_nil,
      List.append_nil]
    have := List.range'_append 0 (1000 * m) 1000 1
    simp only [Nat.one_mul, Nat.zero_add] at this
    rw [this]
    ring_nf

/-- Claim C7: over the whole build loop the ids are pairwise distinct
(`doc_j` is injective in the row offset `j`, and batch ranges are
disjoint), and — the train pickle holding a multiple of 1000 items — each
batch's `ids` and `documents` lists have equal length 1000 with `ids[m]`
identifying `documents[m]`: position `m` carries id `doc_(i+m)` and the
description of `train[i+m]`. -/
theorem C7_batch_ids (train : List TrainItem) (hdiv : 1000 ∣ train.length) :
    (allIds train.length).Nodup
      ∧ ∀ i ∈ batchStarts train.length,
          (batchIds i).length = (batchDocs train i).length
            ∧ (batchIds i).length = 1000
            ∧ ∀ m : ℕ, m < 1000 →
                (batchIds i)[m]? = some (docId (i + m))
                  ∧ (batchDocs train i)[m]? = (train[i + m]?).map description := by
  constructor
  · unfold allIds batchStarts batchIds
    rw [show ∀ l : List ℕ, l.flatMap (fun i => (List.range' i 1000).map docId)
        = (l.flatMap (fun i => List.range' i 1000)).map docId from
        fun l => (List.map_flatMap _ _ _).symm]
    rw [batch_ranges_concat]
    exact (List.nodup_range' _ _).map docId_inj
  · intro i hi
    rcases hdiv with ⟨c, hc⟩
    have hik : ∃ k, k < (train.length + 999) / 1000 ∧ i = 1000 * k := by
      unfold batchStarts at hi
      rcases List.mem_map.mp hi with ⟨k, hk, hki⟩
      exact ⟨k, List.mem_range.mp hk, hki.symm⟩
    rcases hik with ⟨k, hk, hkeq⟩
    have hbound : i + 1000 ≤ train.length := by
      rw [hc] at hk ⊢
      have : (1000 * c + 999) / 1000 = c := by omega
      rw [this] at hk
      omega
    have hlen : (batchDocs train i).length = 1000 := by
      unfold batchDocs
      rw [List.length_map, List.length_take, List.length_drop]
      omega
    have hlenIds : (batchIds i).length = 1000 := by
      unfold batchIds
      rw [List.length_map, List.length_range']
    refine ⟨by rw [hlen, hlenIds], hlenIds, ?_⟩
    intro m hm
    constructor
    · unfold batchIds
      simp [List.getElem?_map, List.getElem?_range', hm]
    · unfold batchDocs
      rw [List.getElem?_map, List.getElem?_take_of_lt hm, List.getElem?_drop]

/-- Fixed item used by the `C7` witness. -/
def itemT : TrainItem :=
  ⟨"How much does this cost to the nearest dollar?\n\nA widget\n\nPrice is $7.00",
   "Electronics", 7⟩

/-- Witness for `C7_batch_ids` on a 2000-item train list. -/
theorem C7_witness :
    (allIds (List.replicate 2000 itemT).length).Nodup
      ∧ (batchIds 1000).length
          = (batchDocs (List.replicate 2000 itemT) 1000).length
      ∧ (batchIds 1000)[5]? = some (docId 1005) := by
  have h := C7_batch_ids (List.replicate 2000 itemT)
    (by rw [List.length_replicate]; omega)
  have hmem : (1000 : ℕ) ∈ batchStarts (List.replicate 2000 itemT).length := by
    rw [List.length_replicate]
    decide
  have h2 := h.2 1000 hmem
  exact ⟨h.1, h2.1, ((h2.2.2 5 (by omega)).1)⟩

/-! ## Dataset balancer (second notebook of the scanner file)

Python source:
```
slots = defaultdict(list)
for item in items:
    slots[round(item.price)].append(item)

np.random.seed(42); random.seed(42)
sample = []
for i in range(1, 1000):
    slot = slots[i]
    if i >= 240:
        sample.extend(slot)
    elif len(slot) <= 1200:
        sample.extend(slot)
    else:
        weights = np.array([1 if item.category == 'Automotive' else 5 for item in slot])
        weights = weights / np.sum(weights)
        selected_indices = np.random.choice(len(slot), size=1200, replace=False, p=weights)
        sample.extend([slot[i] for i in selected_indices])
```
`np.random.choice(..., size=1200, replace=False, ...)` is modelled by an
oracle `sel` that picks 1200 items of the slot without replacement (a
sub-permutation of the slot); the weight vector it is given is embedded
as `normWeights`. -/

/-- An item as seen by the balancer. -/
structure BItem where
  price : ℚ
  category : String
deriving DecidableEq

/-- Python `round()` (banker's rounding, half to even), computed on the
numerator and denominator. -/
def pyRound (q : ℚ) : ℤ :=
  let n := q.num
  let d : ℤ := (q.den : ℤ)
  let fl := n.fdiv d
  let r := n - fl * d
  if 2 * r < d then fl
  else if d < 2 * r then fl + 1
  else if fl % 2 = 0 then fl else fl + 1

/-- `slots[i]`: the items whose rounded price is `i`, in input order. -/
def slotsOf (items : List BItem) (i : ℤ) : List BItem :=
  items.filter (fun it => pyRound it.price = i)

/-- The raw `np` weight vector of a slot. -/
def weightsOf (slot : List BItem) : List ℚ :=
  slot.map (fun it => if it.category = "Automotive" then (1 : ℚ) else 5)

/-- The renormalized per-slot weight vector handed to `np.random.choice`. -/
def normWeights (slot : List BItem) : List ℚ :=
  (weightsOf slot).map (fun w => w / (weightsOf slot).sum)

/-- What the loop body appends for price slot `i`. -/
def contribution (items : List BItem) (sel : List BItem → List BItem)
    (i : ℕ) : List BItem :=
  let slot := slotsOf items (i : ℤ)
  if 240 ≤ i then slot
  else if slot.length ≤ 1200 then slot
  else sel slot

/-- The balanced `sample` list produced by the loop over `range(1, 1000)`. -/
def balancedSample (items : List BItem) (sel : List BItem → List BItem) :
    List BItem :=
  (List.range' 1 999).flatMap (contribution items sel)

/-- Stand-in sampler used by counterexample and witness: take the first
1200 items of the slot. -/
def selTake (slot : List BItem) : List BItem := slot.take 1200

set_option maxRecDepth 40000 in
/-- The claim as stated is false: it quantifies over every input multiset
and asserts that every slot with rounded price at or above 240 is retained
in full, but the loop only visits slots 1..999 — an item with rounded
price 1000 sits in a slot at or above the threshold and is dropped
entirely. -/
theorem C3_counterexample :
    balancedSample [⟨1000, "Electronics"⟩] selTake = []
      ∧ slotsOf [⟨1000, "Electronics"⟩] 1000 = [⟨1000, "Electronics"⟩]
      ∧ (240 : ℤ) ≤ 1000 := by
  refine ⟨by decide, by decide, by decide⟩

theorem filter_flatMap_comm (l : List ℕ) (f : ℕ → List BItem)
    (p : BItem → Bool) :
    (l.flatMap f).filter p = l.flatMap (fun x => (f x).filter p) := by
  induction l with
  | nil => rfl
  | cons x l ih =>
    rw [List.flatMap_cons, List.flatMap_cons, List.filter_append, ih]

theorem flatMap_single (g : ℕ → List BItem) :
    ∀ (l : List ℕ), l.Nodup → ∀ i ∈ l, (∀ j ∈ l, j ≠ i → g j = []) →
      l.flatMap g = g i := by
  intro l
  induction l with
  | nil => intro _ i hi; cases hi
  | cons x l ih =>
    intro hnd i hi hg
    rw [List.flatMap_cons]
    rcases List.mem_cons.mp hi with h1 | h2
    · subst h1
      have hrest : l.flatMap g = [] := by
        apply List.flatMap_eq_nil_iff.mpr
        intro j hj
        refine hg j (List.mem_cons_of_mem _ hj) ?_
        intro heq
        rw [heq] at hj
        exact (List.nodup_cons.mp hnd).1 hj
      rw [hrest, List.append_nil]
    · have hxi : x ≠ i := by
        intro heq
        rw [heq] at hnd
        exact (List.nodup_cons.mp hnd).1 h2
      have hx : g x = [] := hg x (List.mem_cons_self x l) hxi
      rw [hx, List.nil_append]
      exact ih (List.nodup_cons.mp hnd).2 i h2
        (fun j hj => hg j (List.mem_cons_of_mem x hj))

theorem mem_contribution_round (items : List BItem)
    (sel : List BItem → List BItem)
    (hsel : ∀ slot, 1200 < slot.length →
      (sel slot).length = 1200 ∧ (sel slot).Subperm slot)
    (i : ℕ) (x : BItem) (hx : x ∈ contribution items sel i) :
    pyRound x.price = (i : ℤ) := by
  unfold contribution at hx
  have hslot : ∀ y ∈ slotsOf items (i : ℤ), pyRound y.price = (i : ℤ) := by
    intro y hy
    have := (List.mem_filter.mp hy).2
    exact of_decide_eq_true this
  by_cases h240 : 240 ≤ i
  · rw [if_pos h240] at hx
    exact hslot x hx
  · rw [if_neg h240] at hx
    by_cases hlen : (slotsOf items (i : ℤ)).length ≤ 1200
    · rw [if_pos hlen] at hx
      exact hslot x hx
    · rw [if_neg hlen] at hx
      exact hslot x ((hsel _ (by omega)).2.subset hx)

theorem selTake_valid : ∀ slot, 1200 < slot.length →
    (selTake slot).length = 1200 ∧ (selTake slot).Subperm slot := by
  intro slot h
  constructor
  · rw [selTake, List.length_take]
    omega
  · exact (List.take_sublist _ _).subperm

/-- Claim C3 (amended): restricted to the visited rounded prices 1..999,
the balancer keeps every slot at or above 240 in full, keeps below-240
slots of at most 1200 items in full, replaces below-240 slots of more than
1200 items by exactly 1200 of their items chosen by the sampling oracle
without replacement, hence no below-threshold output slot exceeds 1200
items; the renormalized weight vector handed to the sampler gives a
non-Automotive item 5 times the weight of an Automotive one.  Items whose
rounded price falls outside 1..999 are dropped (see the counterexample for
prices above 999, which the claim as stated covers). -/
theorem C3_balancer_amended (items : List BItem)
    (sel : List BItem → List BItem)
    (hsel : ∀ slot, 1200 < slot.length →
      (sel slot).length = 1200 ∧ (sel slot).Subperm slot) :
    (∀ i : ℕ, 1 ≤ i → i ≤ 999 →
        (balancedSample items sel).filter
            (fun it => pyRound it.price = (i : ℤ))
          = contribution items sel i)
      ∧ (∀ i : ℕ, 240 ≤ i → contribution items sel i = slotsOf items (i : ℤ))
      ∧ (∀ i : ℕ, i < 240 → (slotsOf items (i : ℤ)).length ≤ 1200 →
          contribution items sel i = slotsOf items (i : ℤ))
      ∧ (∀ i : ℕ, i < 240 → 1200 < (slotsOf items (i : ℤ)).length →
          (contribution items sel i).length = 1200
            ∧ (contribution items sel i).Subperm (slotsOf items (i : ℤ)))
      ∧ (∀ i : ℕ, 1 ≤ i → i < 240 →
          ((balancedSample items sel).filter
            (fun it => pyRound it.price = (i : ℤ))).length ≤ 1200)
      ∧ (∀ (slot : List BItem) (k j : ℕ) (a b : BItem),
          slot[k]? = some a → slot[j]? = some b →
          a.category ≠ "Automotive" → b.category = "Automotive" →
          (normWeights slot)[k]? = some (5 / (weightsOf slot).sum)
            ∧ (normWeights slot)[j]? = some (1 / (weightsOf slot).sum)) := by
  have hfilter : ∀ i : ℕ, 1 ≤ i → i ≤ 999 →
      (balancedSample items sel).filter
          (fun it => pyRound it.price = (i : ℤ))
        = contribution items sel i := by
    intro i h1 h2
    unfold balancedSample
    rw [filter_flatMap_comm]
    rw [flatMap_single (fun j => (contribution items sel j).filter
        (fun it => pyRound it.price = (i : ℤ)))
      (List.range' 1 999) (List.nodup_range' _ _) i
      (List.mem_range'_1.mpr ⟨h1, by omega⟩) ?side]
    case side =>
      intro j _ hji
      apply List.filter_eq_nil_iff.mpr
      intro x hx
      have hr := mem_contribution_round items sel hsel j x hx
      simp only [decide_eq_true_eq]
      rw [hr]
      intro hcast
      exact hji (by exact_mod_cast hcast)
    apply List.filter_eq_self.mpr
    intro x hx
    simp only [decide_eq_true_eq]
    exact mem_contribution_round items sel hsel i x hx
  refine ⟨hfilter, ?_, ?_, ?_, ?_, ?_⟩
  · intro i h
    unfold contribution
    rw [if_pos h]
  · intro i h hl
    unfold contribution
    rw [if_neg (by omega), if_pos hl]
  · intro i h hl
    unfold contribution
    rw [if_neg (by omega), if_neg (by omega)]
    exact hsel _ hl
  · intro i h1 h2
    rw [hfilter i h1 (by omega)]
    unfold contribution
    rw [if_neg (by omega)]
    by_cases hl : (slotsOf items (i : ℤ)).length ≤ 1200
    · rw [if_pos hl]
      exact hl
    · rw [if_neg hl, (hsel _ (by omega)).1]
  · intro slot k j a b hk hj ha hb
    constructor
    · unfold normWeights weightsOf
      rw [List.getElem?_map, List.getElem?_map, hk]
      simp [ha]
    · unfold normWeights weightsOf
      rw [List.getElem?_map, List.getElem?_map, hj]
      simp [hb]

/-- Concrete items for the `C3` witness (one Automotive, one not, both in
slot 10). -/
def itemsB : List BItem := [⟨10, "Automotive"⟩, ⟨10, "Toys_and_Games"⟩]

set_option maxRecDepth 40000 in
/-- Witness for `C3_balancer_amended` on a two-item input. -/
theorem C3_witness :
    (balancedSample itemsB selTake).filter
        (fun it => pyRound it.price = (10 : ℤ)) = contribution itemsB selTake 10
      ∧ contribution itemsB selTake 10 = slotsOf itemsB (10 : ℤ)
      ∧ ((balancedSample itemsB selTake).filter
          (fun it => pyRound it.price = (10 : ℤ))).length ≤ 1200
      ∧ (normWeights itemsB)[1]? = some (5 / (weightsOf itemsB).sum)
      ∧ (normWeights itemsB)[0]? = some (1 / (weightsOf itemsB).sum) := by
  have h := C3_balancer_amended itemsB selTake selTake_valid
  have hw := h.2.2.2.2.2 itemsB 1 0 ⟨10, "Toys_and_Games"⟩ ⟨10, "Automotive"⟩
    (by decide) (by decide) (by decide) (by decide)
  exact ⟨h.1 10 (by omega) (by omega), h.2.2.1 10 (by omega) (by decide),
    h.2.2.2.2.1 10 (by omega) (by omega), hw.1, hw.2⟩

/-! ## Seeded shuffle and train/test split (second notebook of the scanner
file)

Python source:
```
random.seed(42)
random.shuffle(sample)
train, test = sample[:400_000], sample[400_000:402_000]
```
CPython's `random.shuffle` is the Fisher–Yates loop
`for i in reversed(range(1, len(x))): j = _randbelow(i+1); x[i], x[j] = x[j], x[i]`
driven by the Mersenne-Twister stream, which is a pure function of the
seed; the stream is modelled by a state-passing oracle `g` where
`g st k = (j, st')` draws `j` (intended below `k`) and advances the
state.  Seeding twice with 42 yields the same initial state. -/

/-- `x[i], x[j] = x[j], x[i]` (identity when an index is out of range —
`_randbelow` never produces one). -/
def swapL {α : Type} (l : List α) (i j : ℕ) : List α :=
  match l[i]?, l[j]? with
  | some a, some b => (l.set i b).set j a
  | _, _ => l

/-- The Fisher–Yates loop, `m` counting the current index down to 0. -/
def shuffleGo {σ α : Type} (g : σ → ℕ → ℕ × σ) :
    ℕ → σ → List α → List α × σ
  | 0, st, l => (l, st)
  | m + 1, st, l =>
    let js := g st (m + 2)
    shuffleGo g m js.2 (swapL l (m + 1) js.1)

/-- `random.shuffle(sample)` after `random.seed`, as a pure function of
the seed state. -/
def pyShuffle {σ α : Type} (g : σ → ℕ → ℕ × σ) (st : σ) (l : List α) :
    List α :=
  (shuffleGo g (l.length - 1) st l).1

/-- `train, test = sample[:400_000], sample[400_000:402_000]`. -/
def shuffleSplit {σ α : Type} (g : σ → ℕ → ℕ × σ) (st : σ)
    (sample : List α) : List α × List α :=
  let shuffled := pyShuffle g st sample
  (shuffled.take 400000, (shuffled.drop 400000).take 2000)

theorem set_cons_perm {α : Type} :
    ∀ (t : List α) (m : ℕ) (a b : α), t[m]? = some b →
      (b :: t.set m a).Perm (a :: t) := by
  intro t
  induction t with
  | nil => intro m a b hb; simp at hb
  | cons c t ih =>
    intro m a b hb
    cases m with
    | zero =>
      simp only [List.getElem?_cons_zero, Option.some_inj] at hb
      show (b :: a :: t).Perm (a :: c :: t)
      rw [← hb]
      exact List.Perm.swap a c t
    | succ m =>
      simp only [List.getElem?_cons_succ] at hb
      show (b :: c :: t.set m a).Perm (a :: c :: t)
      exact ((List.Perm.swap c b _).trans ((ih m a b hb).cons c)).trans
        (List.Perm.swap a c t)

theorem swapL_perm {α : Type} (l : List α) (i j : ℕ) :
    (swapL l i j).Perm l := by
  have key : ∀ (t : List α) (i j : ℕ) (a b : α),
      t[i]? = some a → t[j]? = some b →
      ((t.set i b).set j a).Perm t := by
    intro t
    induction t with
    | nil => intro i j a b ha; simp at ha
    | cons c t ih =>
      intro i j a b ha hb
      cases i with
      | zero =>
        simp only [List.getElem?_cons_zero, Option.some_inj] at ha
        cases j with
        | zero =>
          simp only [List.getElem?_cons_zero, Option.some_inj] at hb
          show (a :: t).Perm (c :: t)
          rw [← ha]
        | succ m =>
          simp only [List.getElem?_cons_succ] at hb
          show (b :: t.set m a).Perm (c :: t)
          rw [ha]
          exact set_cons_perm t m a b hb
      | succ m =>
        simp only [List.getElem?_cons_succ] at ha
        cases j with
        | zero =>
          simp only [List.getElem?_cons_zero, Option.some_inj] at hb
          show (a :: t.set m b).Perm (c :: t)
          rw [hb]
          exact set_cons_perm t m b a ha
        | succ k =>
          simp only [List.getElem?_cons_succ] at hb
          show (c :: (t.set m b).set k a).Perm (c :: t)
          exact (ih m k a b ha hb).cons c
  unfold swapL
  cases hi : l[i]? with
  | none => exact List.Perm.refl _
  | some a =>
    cases hj : l[j]? with
    | none => exact List.Perm.refl _
    | some b => exact key l i j a b hi hj

theorem shuffleGo_perm {σ α : Type} (g : σ → ℕ → ℕ × σ) :
    ∀ (m : ℕ) (st : σ) (l : List α), ((shuffleGo g m st l).1).Perm l := by
  intro m
  induction m with
  | zero => intro st l; exact List.Perm.refl _
  | succ m ih =>
    intro st l
    exact (ih _ _).trans (swapL_perm l (m + 1) (g st (m + 2)).1)

/-- Claim C8: the shuffle-and-split step is a pure function of the seed
state — two runs from equal states produce identical train and test sets
— the shuffled list is a permutation of the sample, train is its first
400 000 elements, test the next 2 000, and (for a duplicate-free sample)
train and test are disjoint. -/
theorem C8_shuffle_split {σ α : Type} (g : σ → ℕ → ℕ × σ) (st1 st2 : σ)
    (sample : List α) (hseed : st1 = st2) :
    (shuffleSplit g st1 sample).1 = (shuffleSplit g st2 sample).1
      ∧ (shuffleSplit g st1 sample).2 = (shuffleSplit g st2 sample).2
      ∧ (pyShuffle g st1 sample).Perm sample
      ∧ (shuffleSplit g st1 sample).1 = (pyShuffle g st1 sample).take 400000
      ∧ (shuffleSplit g st1 sample).2
          = ((pyShuffle g st1 sample).drop 400000).take 2000
      ∧ (sample.Nodup →
          List.Disjoint (shuffleSplit g st1 sample).1
            (shuffleSplit g st1 sample).2) := by
  subst hseed
  refine ⟨rfl, rfl, shuffleGo_perm g _ st1 sample, rfl, rfl, ?_⟩
  intro hnd
  have hnd' : (pyShuffle g st1 sample).Nodup :=
    ((shuffleGo_perm g _ st1 sample).nodup_iff).mpr hnd
  have hdisj := List.disjoint_take_drop hnd' (le_refl 400000)
  intro a ha hb
  exact hdisj ha (List.take_subset _ _ hb)

/-- Toy pseudo-random stream for the `C8` witness. -/
def gW : ℕ → ℕ → ℕ × ℕ := fun st k => (st % k, 5 * st + 17)

/-- Witness for `C8_shuffle_split`: two runs seeded with the same state
agree, and on a duplicate-free sample train and test are disjoint. -/
theorem C8_witness :
    (shuffleSplit gW 42 [10, 20, 30]).1 = (shuffleSplit gW 42 [10, 20, 30]).1
      ∧ (pyShuffle gW 42 [10, 20, 30]).Perm [10, 20, 30]
      ∧ List.Disjoint (shuffleSplit gW 42 [10, 20, 30]).1
          (shuffleSplit gW 42 [10, 20, 30]).2 := by
  have h := C8_shuffle_split gW 42 42 [10, 20, 30] rfl
  exact ⟨h.1, h.2.2.1, h.2.2.2.2.2 (by decide)⟩
